import Mathlib

/-!
Verification of the archive-review backend (`src/index.js`, AI variant in
`src/unnamed/part_000`) against its natural-language specification.

Shallow embedding conventions:
* Relative file paths are modeled as lists of path components
  (`List String`); the JavaScript code joins components with `"/"` and all
  string operations it applies to paths are component-compatible
  (`p.split('/').length` is the component count, `path.extname` acts on the
  last component, `f.includes(sub)` for a `/`-free needle holds iff some
  component contains the needle).
* The filesystem is modeled by an inductive tree type (`FsTree`) and file
  reading by an oracle `List String → Option String` (`none` = read throws).
* JavaScript numbers only ever hold integers here, so they are modeled as
  `Nat`/`Int`.
-/

/-! ## Character classes used by the source regexes -/

/-- JavaScript word character, the `\w` class `[A-Za-z0-9_]` (relevant for
the `\b` boundary in `detectStrangeIdentifiers`' regex). -/
def isWordChar (c : Char) : Bool :=
  c.isAlpha || c.isDigit || c = '_'

/-- Character class `[a-zA-Z0-9_$]` of the identifier capture group in
`detectStrangeIdentifiers` (src/index.js line 68). -/
def isIdentChar (c : Char) : Bool :=
  c.isAlpha || c.isDigit || c = '_' || c = '$'

/-- JavaScript whitespace class `\s` (restricted to the whitespace
characters that can occur in practice; the full Unicode space class would
only add further characters to this disjunction). -/
def isJsSpace (c : Char) : Bool :=
  c = ' ' || c = '\t' || c = '\n' || c = '\r' || c = '\x0b' || c = '\x0c' || c = ' '

/-! ## The identifier-extraction regex

`src/index.js` line 68: `/\b(?:function|const|let|var)\s+([a-zA-Z0-9_$]+)/g`
run with `exec` in a loop. The keywords have pairwise distinct first
characters, so alternation never backtracks between them; `\s` and the
identifier class are disjoint, so the greedy quantifiers are
deterministic. The scan therefore: at each position at a word boundary,
tries each keyword as a literal prefix followed by one or more spaces and
one or more identifier characters, captures the identifier greedily, and
resumes after the full match (the `g`-flag `lastIndex` behaviour);
otherwise it advances one character. -/

/-- Tries one keyword alternative at the head of `cs`: the keyword as a
literal prefix, then `\s+` (greedy), then `([a-zA-Z0-9_$]+)` (greedy).
Returns the captured identifier and the total number of characters the
match consumes. -/
def tryKw (kw : String) (cs : List Char) : Option (String × Nat) :=
  if kw.toList.isPrefixOf cs then
    let afterKw := cs.drop kw.length
    let sp := afterKw.takeWhile isJsSpace
    if sp.isEmpty then none
    else
      let afterSp := afterKw.drop sp.length
      let ident := afterSp.takeWhile isIdentChar
      if ident.isEmpty then none
      else some (String.mk ident, kw.length + sp.length + ident.length)
  else none

/-- Tries the alternation `function|const|let|var` at the head of `cs`, in
the source order of the alternatives. -/
def tryMatch (cs : List Char) : Option (String × Nat) :=
  tryKw "function" cs <|> tryKw "const" cs <|> tryKw "let" cs <|> tryKw "var" cs

/-- The `\b` assertion before the keyword: keywords start with a letter, so
the boundary holds iff the previous character (if any) is not a word
character. -/
def atWordBoundary : Option Char → Bool
  | none => true
  | some p => !isWordChar p

/-- One left-to-right pass of `regex.exec` in a loop: `skip` counts match
characters still to be consumed after a successful match (resuming at
`lastIndex`), `prev` is the previously consumed character (for `\b`).
Returns the captured group of every match, in match order. -/
def scanDecls : Nat → Option Char → List Char → List String
  | _, _, [] => []
  | skip+1, _, c :: rest => scanDecls skip (some c) rest
  | 0, prev, c :: rest =>
    match (if atWordBoundary prev then tryMatch (c :: rest) else none) with
    | some (name, consumed) => name :: scanDecls (consumed - 1) (some c) rest
    | none => scanDecls 0 (some c) rest

/-- The flagging condition of `detectStrangeIdentifiers`
(src/index.js line 72): all-underscore (`/^_+$/`), or a single character
not among the loop-counter whitelist `i`, `j`, `k`, or containing a
character outside `[a-zA-Z0-9_$]`. -/
def isStrangeName (name : String) : Bool :=
  (!name.data.isEmpty && name.data.all (fun c => c = '_'))
    || (name.length == 1 && !(["i", "j", "k"].contains name))
    || name.data.any (fun c => !isIdentChar c)

/-- Order-preserving deduplication keeping first occurrences; the semantics
of `[...new Set(names)]` in JavaScript (`Set` iterates in insertion
order). -/
def dedupAux (seen : List String) : List String → List String
  | [] => []
  | x :: xs => if seen.contains x then dedupAux seen xs else x :: dedupAux (x :: seen) xs

/-- Model of `detectStrangeIdentifiers` (src/index.js lines 66-77): extract all
declared names with the regex, keep the flagged ones (the loop pushes a
name exactly when the condition holds), and deduplicate the result with
`[...new Set(names)]`. -/
def detectStrangeIdentifiers (code : String) : List String :=
  let names := (scanDecls 0 none code.data).filter isStrangeName
  dedupAux [] names

/-! ## Readability heuristic -/

/-- Accumulated line statistics (src/index.js `assessReadability` result). -/
structure Readability where
  totalLines : Nat
  longLines : Nat
deriving Repr, DecidableEq

/-- JavaScript `code.split('\n')` over the character list: splits at every
newline; the empty string yields one empty line. -/
def splitLines : List Char → List (List Char)
  | [] => [[]]
  | c :: rest =>
    if c = '\n' then [] :: splitLines rest
    else
      match splitLines rest with
      | l :: ls => (c :: l) :: ls
      | [] => [[c]]

/-- Model of `assessReadability` (src/index.js lines 79-83): split on newline, count
all lines and the lines longer than 120 characters. -/
def assessReadability (code : String) : Readability :=
  let lines := splitLines code.data
  { totalLines := lines.length
    longLines := (lines.filter (fun line => decide (line.length > 120))).length }


/-! ## String helpers (JavaScript string and `path` operations) -/

/-- JavaScript `s.startsWith(pre)`. -/
def strStartsWith (s pre : String) : Bool :=
  pre.data.isPrefixOf s.data

/-- JavaScript `s.includes(sub)` (contiguous substring test). -/
def strContains (s sub : String) : Bool :=
  (List.range (s.data.length + 1)).any (fun i => sub.data.isPrefixOf (s.data.drop i))

/-- Node `path.extname` on a basename: the suffix from the last dot, or the
empty string when there is no dot or the only dot is the leading one (so
`.env` has extension `""`); `".."` is special-cased to `""` as in Node. -/
def extname (n : String) : String :=
  let cs := n.data
  let afterRev := cs.reverse.takeWhile (fun c => c != '.')
  if afterRev.length < cs.length then
    let i := cs.length - afterRev.length - 1
    if i = 0 then "" else if n = ".." then "" else String.mk (cs.drop i)
  else ""

/-- JavaScript `f.includes(sub)` on a component-modeled path, for a
`/`-free needle: the joined path contains `sub` iff some component does
(`sub` cannot span a `/` separator). -/
def pathIncludes (f : List String) (sub : String) : Bool :=
  f.any (fun comp => strContains comp sub)


/-! ## Filesystem model -/

/-- A directory entry of the extracted archive: a file or a directory with
its children, as enumerated by `fs.readdir(..., { withFileTypes: true })`. -/
inductive FsTree where
  | file : String → FsTree
  | dir : String → List FsTree → FsTree

/-- Entry name (`entry.name`). -/
def FsTree.name : FsTree → String
  | .file n => n
  | .dir n _ => n

/-- The `EXCLUDE_FOLDERS` list (src/index.js line 11). -/
def EXCLUDE_FOLDERS : List String :=
  ["node_modules", ".git", "dist", "build", ".vscode"]

/-- Extension allow-list of `collectFiles` (src/index.js line 27). -/
def validExts : List String := [".js", ".ts", ".jsx", ".tsx", ".json"]

/-- The leaf filter of `collectFiles` (src/index.js lines 26-28):
allow-listed extension or basename starting with `.env`. -/
def keepFile (n : String) : Bool :=
  validExts.contains (extname n) || strStartsWith n ".env"

/-- Model of `collectFiles` (src/index.js lines 16-35): walks the entries of a
directory whose path relative to the base is `pre`, skipping entries named
in `EXCLUDE_FOLDERS`, recursing into directories, and yielding the
relative path of every file accepted by `keepFile`. -/
def collectFiles (pre : List String) : List FsTree → List (List String)
  | [] => []
  | entry :: rest =>
    if EXCLUDE_FOLDERS.contains entry.name then collectFiles pre rest
    else
      match entry with
      | .dir n children => collectFiles (pre ++ [n]) children ++ collectFiles pre rest
      | .file n =>
        if keepFile n then (pre ++ [n]) :: collectFiles pre rest
        else collectFiles pre rest

/-- Model of `locatePackageJson` (src/index.js lines 38-51): depth-first,
enumeration-order search for a file named `package.json`, skipping
excluded entries; `dir` is the component path of the directory being
searched and the result is the component path of the first hit. -/
def locatePackageJson (dir : List String) : List FsTree → Option (List String)
  | [] => none
  | entry :: rest =>
    if EXCLUDE_FOLDERS.contains entry.name then locatePackageJson dir rest
    else
      match entry with
      | .file n =>
        if n = "package.json" then some (dir ++ [n]) else locatePackageJson dir rest
      | .dir n children =>
        match locatePackageJson (dir ++ [n]) children with
        | some r => some r
        | none => locatePackageJson dir rest

/-- Number of files named `package.json` anywhere in a forest, exclusion
ignored (the spec's "archive contains N descriptor files"). -/
def countPkgAll : List FsTree → Nat
  | [] => 0
  | .file n :: rest => (if n = "package.json" then 1 else 0) + countPkgAll rest
  | .dir _ children :: rest => countPkgAll children + countPkgAll rest

/-- Number of files named `package.json` reachable without entering an
excluded directory. -/
def countPkgReachable : List FsTree → Nat
  | [] => 0
  | .file n :: rest => (if n = "package.json" then 1 else 0) + countPkgReachable rest
  | .dir n children :: rest =>
    (if EXCLUDE_FOLDERS.contains n then 0 else countPkgReachable children) + countPkgReachable rest

/-- Model of `detectEnvFiles` (src/index.js lines 85-88): re-walk the tree and keep
the files whose basename starts with `.env`. -/
def detectEnvFiles (entries : List FsTree) : List (List String) :=
  (collectFiles [] entries).filter (fun f => strStartsWith (f.getLastD "") ".env")

/-- Children of the directory named `n` among the entries `es` (first
match), used to resolve a component path against the extracted tree. -/
def childDir (n : String) : List FsTree → List FsTree
  | [] => []
  | .file _ :: rest => childDir n rest
  | .dir m children :: rest => if m = n then children else childDir n rest

/-- Resolves a directory component path against a forest, modeling the
filesystem's resolution of `path.dirname(pkgPath)` back to a directory. -/
def subtreeAt (es : List FsTree) : List String → List FsTree
  | [] => es
  | n :: ns => subtreeAt (childDir n es) ns

/-! ## Sampling and the heuristic scan -/

/-- Source-code extension filter of `scanCodeFiles`
(src/index.js lines 98-99). -/
def codeExtensions : List String := [".js", ".ts", ".jsx", ".tsx"]

/-- Whether a candidate path has a source-code extension
(`path.extname(f)` acts on the basename, the last component). -/
def isCodeFile (f : List String) : Bool :=
  codeExtensions.contains (extname (f.getLastD ""))

/-- The source-extension candidates of a file list
(`files.filter(...)`, src/index.js line 99). -/
def codeCandidates (files : List (List String)) : List (List String) :=
  files.filter isCodeFile

/-- Path depth as computed by the sort comparator
(`f.split('/').length`): the number of components. -/
def pathDepth (f : List String) : Nat := f.length

/-- Stable insertion of a path into a depth-sorted list: the new element
goes before the first element of depth not smaller than its own, so
elements of equal depth keep their original relative order. -/
def insertByDepth (x : List String) : List (List String) → List (List String)
  | [] => [x]
  | y :: ys =>
    if pathDepth y < pathDepth x then y :: insertByDepth x ys else x :: y :: ys

/-- Stable sort by ascending path depth; `Array.prototype.sort` with the
comparator `a.split('/').length - b.split('/').length` is specified to be
a stable sort by exactly this key (src/index.js line 102), and the stable
sorted permutation is unique, so any stable sorting algorithm models it. -/
def sortByDepth : List (List String) → List (List String)
  | [] => []
  | x :: xs => insertByDepth x (sortByDepth xs)

/-- The sampled files of `scanCodeFiles` (src/index.js lines 98-102):
source-extension candidates, depth-ascending, first 20. -/
def sampleFiles (files : List (List String)) : List (List String) :=
  (sortByDepth (codeCandidates files)).take 20

/-- Result accumulator of `scanCodeFiles` (src/index.js lines 92-96). -/
structure ScanResults where
  identifiers : List String
  readability : Readability
  analyzedFiles : List (List String)
deriving Repr, DecidableEq

/-- One iteration of the sampling loop (src/index.js lines 104-116):
reading the file through the oracle; on failure (`none`, the `catch`
branch) the accumulator is unchanged, otherwise the file is appended to
`analyzedFiles`, its flagged identifiers are appended, and its line
statistics are added. -/
def scanStep (readFile : List String → Option String) (acc : ScanResults)
    (f : List String) : ScanResults :=
  match readFile f with
  | none => acc
  | some content =>
    { identifiers := acc.identifiers ++ detectStrangeIdentifiers content
      readability :=
        { totalLines := acc.readability.totalLines + (assessReadability content).totalLines
          longLines := acc.readability.longLines + (assessReadability content).longLines }
      analyzedFiles := acc.analyzedFiles ++ [f] }

/-- Model of `scanCodeFiles` (src/index.js lines 91-119) over a file-reading
oracle. -/
def scanCodeFiles (readFile : List String → Option String)
    (files : List (List String)) : ScanResults :=
  (sampleFiles files).foldl (scanStep readFile) ⟨[], ⟨0, 0⟩, []⟩

/-! ## Report generation -/

/-- Dependency manifest extracted from `package.json`
(`extractDependencies` result, src/index.js lines 53-64); kept as
association lists in `Object.keys` order. -/
structure DependencyManifest where
  dependencies : List (String × String)
  devDependencies : List (String × String)

/-- One improvement entry of the report. -/
structure Improvement where
  priority : String
  suggestion : String
  reason : String
deriving Repr, DecidableEq

/-- The report returned by `generateQualityReport`
(src/index.js lines 163-174). -/
structure QualityReport where
  watched_files : List (List String)
  positive_feedback : List String
  improvements : List Improvement
  senior_notes : String
  quality_rating : String
  fallback : Option String

/-- Argument object of `generateQualityReport` (src/index.js line 121). -/
structure ReportInput where
  description : String
  deps : DependencyManifest
  identifiers : List String
  readability : Readability
  envs : List (List String)
  files : List (List String)

/-- ASCII lowering, JavaScript `d.toLowerCase()` for the ASCII dependency
names compared against the `commonDeps` list. -/
def toLowerStr (s : String) : String := String.mk (s.data.map Char.toLower)

/-- The improvements list built by `generateQualityReport`
(src/index.js lines 126-158): the four rules in source order, each
conditionally contributing one entry. -/
def improvementsOf (input : ReportInput) : List Improvement :=
  (if input.identifiers.length > 0 then
    [{ priority := "medium"
       suggestion := "Refactor unusual identifiers like: "
         ++ String.intercalate ", " (input.identifiers.take 3)
       reason := "Strange names can reduce readability and collaboration clarity." }]
  else [])
  ++ (if input.readability.longLines > 10 then
    [{ priority := "medium"
       suggestion := "Break long lines exceeding 120 characters."
       reason := "Improves readability across devices and editors." }]
  else [])
  ++ (if input.envs.length = 0 then
    [{ priority := "low"
       suggestion := "Add a .env.example file."
       reason := "Helps onboarding and clarifies required env variables." }]
  else [])
  ++ (if (input.files.any (fun f => pathIncludes f "route"))
        && !(input.files.any (fun f => pathIncludes f "controller")) then
    [{ priority := "high"
       suggestion := "Separate routes from controller logic."
       reason := "Follows clean architecture and improves testability." }]
  else [])

/-- JavaScript `n.toFixed(1)` for the integer ratings produced here. -/
def formatFixed1 (n : Int) : String := toString n ++ ".0"

/-- Model of `generateQualityReport` (src/index.js lines 121-175). The
`uncommonDeps` local of the source is computed and, as in the source,
never used. Arithmetic is over `Int` as JavaScript's is exact here;
`Math.floor(longLines / 20)` on a non-negative value is `Int` division. -/
def generateQualityReport (input : ReportInput) : QualityReport :=
  let allDeps := input.deps.dependencies.map Prod.fst
  let commonDeps := ["express", "nestjs", "mongoose", "cors", "dotenv", "body-parser"]
  let _uncommonDeps := allDeps.filter (fun d => !commonDeps.contains (toLowerStr d))
  let improvements := improvementsOf input
  let qualityRating : Int :=
    10 - improvements.length - min 2 ((input.readability.longLines : Int) / 20)
  let clampedRating := max 6 (min qualityRating 9)
  { watched_files := input.files
    positive_feedback :=
      ["Modular structure detected.",
       "Valid use of common dependencies.",
       "Environment files appear managed."]
    improvements := improvements
    senior_notes := "This project shows thoughtful structure. A few issues in naming and formatting can be resolved for better maintainability."
    quality_rating := formatFixed1 clampedRating ++ "/10"
    fallback := none }

/-! ## Gemini wrapper (AI-delegation variant, src/unnamed/part_000) -/

/-- Model of `askGeminiAI` (src/unnamed/part_000 lines 53-63): the external
`model.generateContent` call is an oracle that either returns text or
throws; the `catch` branch degrades to the fixed sentinel string. -/
def askGeminiAI (generateContent : String → Except String String)
    (prompt : String) : String :=
  match generateContent prompt with
  | .ok txt => txt
  | .error _ => "[Gemini API Error]"

/-! ## The `/upload` handler (src/index.js lines 177-213)

The handler is modeled as a pure function from an abstract request to the
HTTP status, the response report (on success), and the trace of
filesystem effects it performs, in order. JavaScript exceptions of the
external collaborators are modeled as request fields (`extractOk`) and
oracles (`readFile`, `parseDeps`). -/

/-- Filesystem effects of the handler that matter for resource cleanup. -/
inductive FsAction where
  | mkdirTemp
  | extractArchive
  | rmExtractDir
  | rmUploadFile
deriving DecidableEq, Repr

/-- Abstract `/upload` request: whether a file was uploaded, whether
`AdmZip` extraction succeeds, the extracted tree, a file-content oracle
keyed by component path relative to the extraction directory (`none` =
read throws), a `JSON.parse`-plus-field-defaulting oracle for
`package.json` (`none` = parse throws), and the free-text description
field. -/
structure UploadRequest where
  hasFile : Bool
  extractOk : Bool
  tree : List FsTree
  readFile : List String → Option String
  parseDeps : String → Option DependencyManifest
  description : String

/-- Handler outcome: HTTP status, response report on success, and the
ordered filesystem-effect trace. -/
structure HandlerResult where
  status : Nat
  body : Option QualityReport
  actions : List FsAction

/-- Model of `extractDependencies` (src/index.js lines 53-64): read and parse the
descriptor; any read or parse failure yields the empty manifest. -/
def extractDependencies (readFile : List String → Option String)
    (parseDeps : String → Option DependencyManifest)
    (pkgPath : List String) : DependencyManifest :=
  match readFile pkgPath with
  | none => ⟨[], []⟩
  | some content => (parseDeps content).getD ⟨[], []⟩

/-- The `/upload` handler (src/index.js lines 177-213): 400 without any
effect when no file was uploaded; otherwise create the temp dir, extract
(failure → 500), locate `package.json` (missing → 400), run the pipeline
and remove the temp dir and the uploaded archive only on the success
path, as in the source. -/
def uploadHandler (req : UploadRequest) : HandlerResult :=
  if !req.hasFile then { status := 400, body := none, actions := [] }
  else if !req.extractOk then
    { status := 500, body := none, actions := [.mkdirTemp] }
  else
    match locatePackageJson [] req.tree with
    | none => { status := 400, body := none, actions := [.mkdirTemp, .extractArchive] }
    | some pkgPath =>
      let projectRoot := pkgPath.dropLast
      let deps := extractDependencies req.readFile req.parseDeps pkgPath
      let rootEntries := subtreeAt req.tree projectRoot
      let allFiles := collectFiles [] rootEntries
      let envs := detectEnvFiles rootEntries
      let scan := scanCodeFiles (fun f => req.readFile (projectRoot ++ f)) allFiles
      let report := generateQualityReport
        { description := req.description
          deps := deps
          identifiers := scan.identifiers
          readability := scan.readability
          envs := envs
          files := scan.analyzedFiles }
      { status := 200
        body := some report
        actions := [.mkdirTemp, .extractArchive, .rmExtractDir, .rmUploadFile] }

/-! ## Concrete instances used by counterexamples and witnesses -/

/-- Two files, both declaring the all-underscore identifier `_`. -/
def c1Read : List String → Option String := fun f =>
  if f = ["a.js"] then some "var _ = 1"
  else if f = ["b.js"] then some "var _ = 1"
  else none

/-- Candidate list holding the two files of `c1Read`. -/
def c1Files : List (List String) := [["a.js"], ["b.js"]]

/-- Valid upload whose archive holds one source file and no
`package.json`. -/
def c2NoPkgRequest : UploadRequest :=
  { hasFile := true, extractOk := true
    tree := [.dir "src" [.file "app.js"]]
    readFile := fun _ => none, parseDeps := fun _ => none, description := "" }

/-- Upload whose archive extraction throws. -/
def c2ErrorRequest : UploadRequest :=
  { hasFile := true, extractOk := false
    tree := [], readFile := fun _ => none, parseDeps := fun _ => none
    description := "" }

/-- Upload that runs the pipeline to completion. -/
def c2OkRequest : UploadRequest :=
  { hasFile := true, extractOk := true
    tree := [.file "package.json"]
    readFile := fun _ => none, parseDeps := fun _ => none, description := "" }

/-- A tree whose only `package.json` sits inside `node_modules`. -/
def c4NestedTree : List FsTree := [.dir "node_modules" [.file "package.json"]]

/-- A tree with no `package.json` at all. -/
def c4EmptyTree : List FsTree := [.dir "src" [.file "a.js"]]

/-- A tree with exactly one `package.json`, nested two levels deep. -/
def c4DeepTree : List FsTree := [.dir "a" [.dir "b" [.file "package.json"]]]

/-- A tree with a source file next to an excluded directory holding
another source file. -/
def c5Tree : List FsTree :=
  [.dir "src" [.file "a.js"], .dir "node_modules" [.file "b.js"]]

/-- Two source candidates at different depths. -/
def c6Files : List (List String) := [["lib", "b.ts"], ["a.js"]]

/-- Read oracle used on the sampled side of the C6 witness. -/
def c6ReadA : List String → Option String := fun f =>
  if f = ["a.js"] then some "var x = 1" else if f = ["lib", "b.ts"] then some "let y = 2" else none

/-- Read oracle agreeing with `c6ReadA` on the sampled files only. -/
def c6ReadB : List String → Option String := fun f =>
  if f = ["a.js"] then some "var x = 1" else if f = ["lib", "b.ts"] then some "let y = 2" else some "junk"

/-- Read oracle failing exactly on `bad.js`. -/
def c7Read : List String → Option String := fun f =>
  if f = ["bad.js"] then none else some "let value = 1"

/-- Candidate list holding an unreadable and a readable file. -/
def c7Files : List (List String) := [["bad.js"], ["ok.js"]]

/-- A text-generation call that always throws. -/
def c8Gen : String → Except String String := fun _ => .error "network down"

/-! ## Dedup and scanner lemmas -/

/-- Elements of `dedupAux seen l` come from `l` and avoid `seen`. -/
theorem mem_dedupAux (l : List String) : ∀ (seen : List String) (x : String),
    x ∈ dedupAux seen l → x ∈ l ∧ x ∉ seen := by
  induction l with
  | nil => intro seen x h; simp [dedupAux] at h
  | cons y ys ih =>
    intro seen x h
    simp only [dedupAux] at h
    by_cases hc : seen.contains y = true
    · simp only [hc, if_pos] at h
      rcases ih seen x h with ⟨h1, h2⟩
      exact ⟨List.mem_cons_of_mem _ h1, h2⟩
    · simp only [hc, if_neg, Bool.not_eq_true] at h
      rcases List.mem_cons.mp h with rfl | h
      · refine ⟨List.mem_cons_self _ _, ?_⟩
        simpa using hc
      · rcases ih (y :: seen) x h with ⟨h1, h2⟩
        simp only [List.mem_cons, not_or] at h2
        exact ⟨List.mem_cons_of_mem _ h1, h2.2⟩

/-- Lemma: `dedupAux` produces a duplicate-free list. -/
theorem dedupAux_nodup (l : List String) : ∀ seen : List String,
    (dedupAux seen l).Nodup := by
  induction l with
  | nil => intro seen; simp [dedupAux]
  | cons y ys ih =>
    intro seen
    simp only [dedupAux]
    by_cases hc : seen.contains y = true
    · simp only [hc, if_pos]; exact ih seen
    · simp only [hc, if_neg, Bool.not_eq_true]
      refine List.Nodup.cons ?_ (ih (y :: seen))
      intro hmem
      rcases mem_dedupAux ys (y :: seen) y hmem with ⟨_, h2⟩
      exact h2 (List.mem_cons_self _ _)

/-- Lemma: `detectStrangeIdentifiers` is duplicate-free (the per-file
`[...new Set(names)]`). -/
theorem detect_nodup (code : String) : (detectStrangeIdentifiers code).Nodup :=
  dedupAux_nodup _ []

/-- Membership in the detector output: the name was captured by the regex
scan and satisfies the flagging condition. -/
theorem mem_detectered (code name : String)
    (h : name ∈ detectStrangeIdentifiers code) :
    isStrangeName name = true ∧ name ∈ scanDecls 0 none code.data := by
  unfold detectStrangeIdentifiers at h
  rcases mem_dedupAux _ _ _ h with ⟨h1, _⟩
  rcases List.mem_filter.mp h1 with ⟨h2, h3⟩
  exact ⟨h3, h2⟩

/-- A capture of `tryKw` is nonempty and uses only identifier
characters. -/
theorem tryKw_ident (kw : String) (cs : List Char) (name : String) (k : Nat)
    (h : tryKw kw cs = some (name, k)) :
    name.data ≠ [] ∧ ∀ c ∈ name.data, isIdentChar c = true := by
  unfold tryKw at h
  split at h
  · dsimp only at h
    split at h
    · exact absurd h (by simp)
    · split at h
      · exact absurd h (by simp)
      · rename_i hne
        have h' := Option.some.inj h
        rw [Prod.mk.injEq] at h'
        obtain ⟨h1, _⟩ := h'
        subst h1
        constructor
        · intro hemp
          apply hne
          simpa [List.isEmpty_iff] using hemp
        · intro c hc
          exact List.mem_takeWhile_imp hc
  · exact absurd h (by simp)

/-- A capture of the full alternation is nonempty and uses only identifier
characters. -/
theorem tryMatch_ident (cs : List Char) (name : String) (k : Nat)
    (h : tryMatch cs = some (name, k)) :
    name.data ≠ [] ∧ ∀ c ∈ name.data, isIdentChar c = true := by
  unfold tryMatch at h
  rcases h1 : tryKw "function" cs with _ | p1
  · rcases h2 : tryKw "const" cs with _ | p2
    · rcases h3 : tryKw "let" cs with _ | p3
      · rcases h4 : tryKw "var" cs with _ | p4
        · simp [h1, h2, h3, h4] at h
        · simp [h1, h2, h3, h4] at h
          exact tryKw_ident _ _ _ _ (h ▸ h4)
      · simp [h1, h2, h3] at h
        exact tryKw_ident _ _ _ _ (h ▸ h3)
    · simp [h1, h2] at h
      exact tryKw_ident _ _ _ _ (h ▸ h2)
  · simp [h1] at h
    exact tryKw_ident _ _ _ _ (h ▸ h1)

/-- Every name produced by the regex scan is nonempty and consists only of
identifier-class characters, because the capture group is
`([a-zA-Z0-9_$]+)`. -/
theorem scanDecls_ident (cs : List Char) : ∀ (skip : Nat) (prev : Option Char)
    (name : String), name ∈ scanDecls skip prev cs →
    name.data ≠ [] ∧ ∀ c ∈ name.data, isIdentChar c = true := by
  induction cs with
  | nil => intro skip prev name h; simp [scanDecls] at h
  | cons c rest ih =>
    intro skip prev name h
    match skip with
    | sk + 1 =>
      exact ih sk (some c) name h
    | 0 =>
      rcases hm : (if atWordBoundary prev then tryMatch (c :: rest) else none) with
        _ | ⟨nm, consumed⟩
      · rw [scanDecls, hm] at h
        exact ih 0 (some c) name h
      · rw [scanDecls, hm] at h
        rcases List.mem_cons.mp h with rfl | h'
        · have hb : tryMatch (c :: rest) = some (name, consumed) := by
            by_cases hw : atWordBoundary prev = true
            · rwa [if_pos hw] at hm
            · rw [if_neg hw] at hm; exact absurd hm (by simp)
          exact tryMatch_ident _ _ _ hb
        · exact ih (consumed - 1) (some c) name h'

/-- Claim C10: every name returned by `detectStrangeIdentifiers` consists
solely of underscores or is a single character different from `i`, `j`
and `k`; the third heuristic branch (a character outside the identifier
alphabet) can never fire, because the extraction regex only captures
names built from `[a-zA-Z0-9_$]`. -/
theorem detect_flags_only_underscores_or_singles (code name : String)
    (h : name ∈ detectStrangeIdentifiers code) :
    ((name.data ≠ [] ∧ ∀ c ∈ name.data, c = '_') ∨
      (name.length = 1 ∧ name ≠ "i" ∧ name ≠ "j" ∧ name ≠ "k")) ∧
    ∀ c ∈ name.data, isIdentChar c = true := by
  obtain ⟨hs, hmem⟩ := mem_detectered code name h
  obtain ⟨hne, hid⟩ := scanDecls_ident _ _ _ _ hmem
  refine ⟨?_, hid⟩
  unfold isStrangeName at hs
  simp only [Bool.or_eq_true, Bool.and_eq_true] at hs
  rcases hs with (⟨_, h2⟩ | ⟨h1, h2⟩) | h3
  · left
    refine ⟨hne, ?_⟩
    intro c hc
    have := List.all_eq_true.mp h2 c hc
    simpa using this
  · right
    have hlen : name.length = 1 := by simpa using h1
    have hnc : name ∉ (["i", "j", "k"] : List String) := by
      simp only [Bool.not_eq_true'] at h2
      simpa using h2
    simp only [List.mem_cons, List.mem_singleton, not_or] at hnc
    exact ⟨hlen, hnc.1, hnc.2.1, hnc.2.2.1⟩
  · exfalso
    rcases List.any_eq_true.mp h3 with ⟨c, hc, hcc⟩
    have hg := hid c hc
    simp only [Bool.not_eq_true'] at hcc
    rw [hg] at hcc
    exact absurd hcc (by simp)

/-- Witness for C10 at a concrete program text: it applies the claim
theorem to the flagged name `_` of `var _ = 1`. -/
theorem detect_flags_only_underscores_or_singles_witness :
    ("_" ∈ detectStrangeIdentifiers "var _ = 1") ∧
    ((((("_" : String).data ≠ [] ∧ ∀ c ∈ ("_" : String).data, c = '_') ∨
      (("_" : String).length = 1 ∧ ("_" : String) ≠ "i" ∧ ("_" : String) ≠ "j"
        ∧ ("_" : String) ≠ "k")) ∧
      ∀ c ∈ ("_" : String).data, isIdentChar c = true)) :=
  ⟨by decide, detect_flags_only_underscores_or_singles "var _ = 1" "_" (by decide)⟩

/-! ## Scan aggregation lemmas -/

/-- The identifiers accumulated by the sampling loop are the concatenation
of each readable file's (per-file deduplicated) flagged names. -/
theorem foldl_scanStep_identifiers (readFile : List String → Option String)
    (l : List (List String)) : ∀ acc : ScanResults,
    (l.foldl (scanStep readFile) acc).identifiers =
      acc.identifiers ++ (l.filterMap readFile).flatMap detectStrangeIdentifiers := by
  induction l with
  | nil => intro acc; simp
  | cons f fs ih =>
    intro acc
    rcases hr : readFile f with _ | content
    · simp only [List.foldl_cons, List.filterMap_cons, hr]
      rw [show scanStep readFile acc f = acc by simp [scanStep, hr]]
      exact ih acc
    · simp only [List.foldl_cons, List.filterMap_cons, hr]
      rw [show scanStep readFile acc f =
        { identifiers := acc.identifiers ++ detectStrangeIdentifiers content
          readability :=
            { totalLines := acc.readability.totalLines + (assessReadability content).totalLines
              longLines := acc.readability.longLines + (assessReadability content).longLines }
          analyzedFiles := acc.analyzedFiles ++ [f] } by simp [scanStep, hr]]
      rw [ih]
      simp [List.flatMap_cons, List.append_assoc]

/-- Amended claim C1: the scan deduplicates flagged identifiers within
each sampled file (per-file set semantics), but across files it merely
concatenates the per-file results, so a name declared in several sampled
files occurs once per such file, not once overall. -/
theorem scan_identifiers_per_file_dedup (readFile : List String → Option String)
    (files : List (List String)) :
    (scanCodeFiles readFile files).identifiers =
      ((sampleFiles files).filterMap readFile).flatMap detectStrangeIdentifiers ∧
    ∀ code, (detectStrangeIdentifiers code).Nodup := by
  constructor
  · unfold scanCodeFiles
    rw [foldl_scanStep_identifiers]
    rfl
  · exact detect_nodup

/-- Counterexample to claim C1: with two sampled files both declaring the
suspicious identifier `_`, the scan result contains `_` twice — the
identifiers collection is not deduplicated across the whole scan. -/
theorem scan_identifiers_cross_file_duplicate :
    (scanCodeFiles c1Read c1Files).identifiers = ["_", "_"] ∧
    ¬(scanCodeFiles c1Read c1Files).identifiers.Nodup := by
  constructor
  · decide
  · decide

/-! ## Report generator theorems -/

/-- Claim C3: for every input, the rating is `10` minus the number of
improvement entries minus `min 2 (longLines / 20)`, clamped to `[6, 9]`,
formatted to one decimal place with the `"/10"` suffix; the clamped value
always lies within `[6, 9]`. -/
theorem quality_rating_clamped (input : ReportInput) :
    (generateQualityReport input).quality_rating =
      formatFixed1 (max 6 (min (10 - ((improvementsOf input).length : Int)
        - min 2 ((input.readability.longLines : Int) / 20)) 9)) ++ "/10" ∧
    6 ≤ max 6 (min (10 - ((improvementsOf input).length : Int)
        - min 2 ((input.readability.longLines : Int) / 20)) 9) ∧
    max 6 (min (10 - ((improvementsOf input).length : Int)
        - min 2 ((input.readability.longLines : Int) / 20)) 9) ≤ 9 := by
  refine ⟨rfl, le_max_left _ _, ?_⟩
  have h1 : min (10 - ((improvementsOf input).length : Int)
      - min 2 ((input.readability.longLines : Int) / 20)) 9 ≤ 9 := min_le_right _ _
  omega

/-- Claim C9: the user-supplied `description` field has no influence on
any field of the produced report — two inputs agreeing on everything but
the description yield identical reports. -/
theorem report_ignores_description (d₁ d₂ : String) (deps : DependencyManifest)
    (idents : List String) (readab : Readability)
    (envs files : List (List String)) :
    generateQualityReport
        { description := d₁, deps := deps, identifiers := idents
          readability := readab, envs := envs, files := files } =
      generateQualityReport
        { description := d₂, deps := deps, identifiers := idents
          readability := readab, envs := envs, files := files } := rfl

/-! ## Locator lemmas -/

/-- No excluded folder name is `package.json`. -/
theorem excluded_ne_pkg (n : String) (h : EXCLUDE_FOLDERS.contains n = true) :
    n ≠ "package.json" := by
  simp only [EXCLUDE_FOLDERS] at h
  simp only [List.contains_cons, List.contains_nil, Bool.or_eq_true, beq_iff_eq] at h
  rcases h with rfl | rfl | rfl | rfl | rfl | h
  · decide
  · decide
  · decide
  · decide
  · decide
  · exact absurd h (by simp)

/-- The locator succeeds exactly when some `package.json` is reachable
without entering an excluded directory. -/
theorem locate_isSome_iff (dir : List String) (entries : List FsTree) :
    (locatePackageJson dir entries).isSome = true ↔
      0 < countPkgReachable entries := by
  induction dir, entries using locatePackageJson.induct with
  | case1 dir =>
    rw [locatePackageJson, countPkgReachable]
    simp
  | case2 dir e rest hex ih =>
    cases e with
    | file n =>
      have hexn : EXCLUDE_FOLDERS.contains n = true := by
        simpa [FsTree.name] using hex
      have hne : n ≠ "package.json" := excluded_ne_pkg n hexn
      rw [locatePackageJson, countPkgReachable]
      simp only [FsTree.name, hexn, if_true, if_neg hne]
      simpa using ih
    | dir n children =>
      have hexn : EXCLUDE_FOLDERS.contains n = true := by
        simpa [FsTree.name] using hex
      rw [locatePackageJson, countPkgReachable]
      simp only [FsTree.name, hexn, if_true]
      simpa using ih
  | case3 dir rest hex =>
    rw [locatePackageJson, countPkgReachable]
    simp [FsTree.name, show "package.json" ∉ EXCLUDE_FOLDERS by decide]
  | case4 dir rest n hne hex ih =>
    have hexn : ¬EXCLUDE_FOLDERS.contains n = true := by
      simpa [FsTree.name] using hex
    rw [locatePackageJson, countPkgReachable]
    simp only [FsTree.name, if_neg hexn, if_neg hne]
    simpa using ih
  | case5 dir rest n children r hsome hex ih =>
    have hexn : ¬EXCLUDE_FOLDERS.contains n = true := by
      simpa [FsTree.name] using hex
    have hch : 0 < countPkgReachable children := ih.mp (by simp [hsome])
    rw [locatePackageJson, countPkgReachable]
    simp only [FsTree.name, if_neg hexn, hsome]
    constructor
    · intro _; omega
    · intro _; simp
  | case6 dir rest n children hnone hex ihc ih =>
    have hexn : ¬EXCLUDE_FOLDERS.contains n = true := by
      simpa [FsTree.name] using hex
    have hch : countPkgReachable children = 0 := by
      by_contra hc
      have := ihc.mpr (by omega)
      simp [hnone] at this
    rw [locatePackageJson, countPkgReachable]
    simp only [FsTree.name, if_neg hexn, hnone, hch]
    simpa using ih

/-- Reachable descriptors are among all descriptors. -/
theorem countPkgReachable_le (entries : List FsTree) :
    countPkgReachable entries ≤ countPkgAll entries := by
  induction entries using countPkgAll.induct with
  | case1 => simp [countPkgAll, countPkgReachable]
  | case2 n rest ih =>
    rw [countPkgAll, countPkgReachable]
    omega
  | case3 n children rest ihc ih =>
    rw [countPkgAll, countPkgReachable]
    split
    · omega
    · omega

/-- Counterexample to claim C4: a tree containing exactly one
`package.json` (inside `node_modules`) for which the locator still
returns `none`. -/
theorem locate_misses_nested_descriptor :
    countPkgAll c4NestedTree = 1 ∧ locatePackageJson [] c4NestedTree = none := by
  constructor
  · simp [c4NestedTree, countPkgAll]
  · simp [c4NestedTree, locatePackageJson, EXCLUDE_FOLDERS, FsTree.name]

/-- Amended claim C4: the locator returns `none` for every tree containing
zero descriptor files, and returns some descriptor path for every tree
containing exactly one `package.json` that is not inside an excluded
directory, regardless of its depth. -/
theorem locate_none_or_some_amended (dir : List String) (entries : List FsTree) :
    (countPkgAll entries = 0 → locatePackageJson dir entries = none) ∧
    (countPkgReachable entries = 1 →
      (locatePackageJson dir entries).isSome = true) := by
  constructor
  · intro h0
    have hr : countPkgReachable entries = 0 := by
      have := countPkgReachable_le entries
      omega
    have := (locate_isSome_iff dir entries).not
    rw [Option.not_isSome_iff_eq_none] at this
    exact this.mpr (by omega)
  · intro h1
    exact (locate_isSome_iff dir entries).mpr (by omega)

/-- Witness for C4 (amended): both parts applied at concrete trees — a
tree with no descriptor yields `none`, and a tree with exactly one
reachable descriptor two levels deep yields a path. -/
theorem locate_none_or_some_amended_witness :
    locatePackageJson [] c4EmptyTree = none ∧
    (locatePackageJson [] c4DeepTree).isSome = true :=
  ⟨(locate_none_or_some_amended [] c4EmptyTree).1
      (by simp [c4EmptyTree, countPkgAll]),
    (locate_none_or_some_amended [] c4DeepTree).2
      (by simp [c4DeepTree, countPkgReachable, EXCLUDE_FOLDERS])⟩

/-! ## Tree-walk exclusion lemmas -/

/-- Generalized claim C5: if the relative prefix `pre` passes through no
excluded directory, then no path yielded by the walk contains an excluded
component — the exclusion check is applied at every recursion level. -/
theorem collectFiles_no_excluded_component (pre : List String)
    (entries : List FsTree) :
    (∀ c ∈ pre, EXCLUDE_FOLDERS.contains c = false) →
    ∀ p ∈ collectFiles pre entries, ∀ c ∈ p,
      EXCLUDE_FOLDERS.contains c = false := by
  induction pre, entries using collectFiles.induct with
  | case1 pre =>
    intro _ p hp
    rw [collectFiles] at hp
    simp at hp
  | case2 pre e rest hex ih =>
    intro hpre p hp
    rw [collectFiles.eq_def] at hp
    simp only [hex, if_true] at hp
    exact ih hpre p hp
  | case3 pre rest n children hex ihc ih =>
    intro hpre p hp
    rw [collectFiles.eq_def] at hp
    simp only [FsTree.name] at hex
    simp only [FsTree.name, hex, if_false, Bool.false_eq_true] at hp
    have hn : EXCLUDE_FOLDERS.contains n = false := by
      simpa using hex
    rcases List.mem_append.mp hp with hp | hp
    · refine ihc ?_ p hp
      intro c hc
      rcases List.mem_append.mp hc with hc | hc
      · exact hpre c hc
      · rw [List.mem_singleton.mp hc]; exact hn
    · exact ih hpre p hp
  | case4 pre rest n hkeep hex ih =>
    intro hpre p hp
    rw [collectFiles.eq_def] at hp
    simp only [FsTree.name] at hex
    simp only [FsTree.name, hex, if_false, hkeep, if_true, Bool.false_eq_true] at hp
    have hn : EXCLUDE_FOLDERS.contains n = false := by
      simpa using hex
    rcases List.mem_cons.mp hp with rfl | hp
    · intro c hc
      rcases List.mem_append.mp hc with hc | hc
      · exact hpre c hc
      · rw [List.mem_singleton.mp hc]; exact hn
    · exact ih hpre p hp
  | case5 pre rest n hkeep hex ih =>
    intro hpre p hp
    rw [collectFiles.eq_def] at hp
    simp only [FsTree.name, hex, hkeep, if_false, Bool.false_eq_true] at hp
    rw [ite_self] at hp
    exact ih hpre p hp

/-- Claim C5: starting from the base directory, the tree walk never yields
a relative path with an excluded-name component, at any nesting depth. -/
theorem walk_never_yields_excluded_path (entries : List FsTree)
    (p : List String) (hp : p ∈ collectFiles [] entries) :
    ∀ c ∈ p, EXCLUDE_FOLDERS.contains c = false :=
  collectFiles_no_excluded_component [] entries (by simp) p hp

/-- Witness for C5 at a concrete tree holding an excluded directory: the
walk yields exactly `src/a.js`, whose components are all unexcluded. -/
theorem walk_never_yields_excluded_path_witness :
    (["src", "a.js"] ∈ collectFiles [] c5Tree) ∧
    ∀ c ∈ (["src", "a.js"] : List String),
      EXCLUDE_FOLDERS.contains c = false :=
  ⟨by
    simp [c5Tree, collectFiles, FsTree.name,
      show keepFile "a.js" = true by decide,
      show "src" ∉ EXCLUDE_FOLDERS by decide,
      show "a.js" ∉ EXCLUDE_FOLDERS by decide,
      show "node_modules" ∈ EXCLUDE_FOLDERS by decide],
    walk_never_yields_excluded_path c5Tree ["src", "a.js"] (by
      simp [c5Tree, collectFiles, FsTree.name,
        show keepFile "a.js" = true by decide,
        show "src" ∉ EXCLUDE_FOLDERS by decide,
        show "a.js" ∉ EXCLUDE_FOLDERS by decide,
        show "node_modules" ∈ EXCLUDE_FOLDERS by decide])⟩

/-! ## Sampling lemmas -/

/-- Membership through stable insertion. -/
theorem mem_insertByDepth (x a : List String) (l : List (List String)) :
    a ∈ insertByDepth x l ↔ a = x ∨ a ∈ l := by
  induction l with
  | nil => simp [insertByDepth]
  | cons y ys ih =>
    rw [insertByDepth]
    split
    · rw [List.mem_cons, ih, List.mem_cons]
      tauto
    · simp only [List.mem_cons]

/-- Stable insertion preserves depth-sortedness. -/
theorem insertByDepth_sorted (x : List String) (l : List (List String))
    (h : l.Pairwise (fun a b => pathDepth a ≤ pathDepth b)) :
    (insertByDepth x l).Pairwise (fun a b => pathDepth a ≤ pathDepth b) := by
  induction l with
  | nil => simp [insertByDepth]
  | cons y ys ih =>
    rw [insertByDepth]
    rcases List.pairwise_cons.mp h with ⟨hy, hys⟩
    split
    · rename_i hlt
      refine List.pairwise_cons.mpr ⟨?_, ih hys⟩
      intro b hb
      rcases (mem_insertByDepth x b ys).mp hb with rfl | hb
      · omega
      · exact hy b hb
    · rename_i hnlt
      refine List.pairwise_cons.mpr ⟨?_, h⟩
      intro b hb
      rcases List.mem_cons.mp hb with rfl | hb
      · omega
      · have := hy b hb
        omega

/-- The stable sort is sorted by ascending depth. -/
theorem sortByDepth_sorted (l : List (List String)) :
    (sortByDepth l).Pairwise (fun a b => pathDepth a ≤ pathDepth b) := by
  induction l with
  | nil => simp [sortByDepth]
  | cons x xs ih =>
    rw [sortByDepth]
    exact insertByDepth_sorted x _ ih

/-- Stable insertion is a permutation of consing. -/
theorem insertByDepth_perm (x : List String) (l : List (List String)) :
    (insertByDepth x l).Perm (x :: l) := by
  induction l with
  | nil => simp [insertByDepth]
  | cons y ys ih =>
    rw [insertByDepth]
    split
    · exact (ih.cons y).trans (List.Perm.swap x y ys)
    · exact List.Perm.refl _

/-- The stable sort is a permutation of its input. -/
theorem sortByDepth_perm (l : List (List String)) :
    (sortByDepth l).Perm l := by
  induction l with
  | nil => simp [sortByDepth]
  | cons x xs ih =>
    rw [sortByDepth]
    exact (insertByDepth_perm x _).trans (ih.cons x)

/-- The sampling loop consults the read oracle only on sampled files. -/
theorem foldl_scanStep_congr (r₁ r₂ : List String → Option String)
    (l : List (List String)) : ∀ acc : ScanResults,
    (∀ f ∈ l, r₁ f = r₂ f) →
    l.foldl (scanStep r₁) acc = l.foldl (scanStep r₂) acc := by
  induction l with
  | nil => intro acc _; rfl
  | cons f fs ih =>
    intro acc hagree
    simp only [List.foldl_cons]
    rw [show scanStep r₁ acc f = scanStep r₂ acc f by
      simp [scanStep, hagree f (List.mem_cons_self f fs)]]
    exact ih _ (fun g hg => hagree g (List.mem_cons_of_mem f hg))

/-- Claim C6: the scan samples at most 20 files, chosen as the
depth-ascending (shallowest-first) prefix of the source-extension
candidates; with 5 or fewer candidates every candidate is sampled; and
files beyond the sample are never read — the scan result only depends on
the oracle's values on the sampled files. -/
theorem sample_bounded_and_shallowest (files : List (List String)) :
    (sampleFiles files).length ≤ 20 ∧
    List.IsPrefix (sampleFiles files) (sortByDepth (codeCandidates files)) ∧
    (sampleFiles files).Pairwise (fun a b => pathDepth a ≤ pathDepth b) ∧
    ((codeCandidates files).length ≤ 5 →
      ∀ f ∈ codeCandidates files, f ∈ sampleFiles files) ∧
    ∀ r₁ r₂ : List String → Option String,
      (∀ f ∈ sampleFiles files, r₁ f = r₂ f) →
      scanCodeFiles r₁ files = scanCodeFiles r₂ files := by
  refine ⟨?_, ?_, ?_, ?_, ?_⟩
  · unfold sampleFiles
    simp
  · exact List.take_prefix 20 _
  · exact List.Pairwise.sublist (List.IsPrefix.sublist (List.take_prefix 20 _))
      (sortByDepth_sorted _)
  · intro hlen f hf
    unfold sampleFiles
    rw [List.take_of_length_le]
    · exact ((sortByDepth_perm _).mem_iff).mpr hf
    · rw [(sortByDepth_perm _).length_eq]
      omega
  · intro r₁ r₂ hagree
    unfold scanCodeFiles
    exact foldl_scanStep_congr r₁ r₂ _ _ hagree

/-- Witness for C6 at two concrete candidates: both are sampled
(candidate count 2 ≤ 5), and two oracles agreeing on the sampled files
give identical scans. -/
theorem sample_bounded_and_shallowest_witness :
    (["a.js"] ∈ sampleFiles c6Files) ∧
    scanCodeFiles c6ReadA c6Files = scanCodeFiles c6ReadB c6Files :=
  ⟨(sample_bounded_and_shallowest c6Files).2.2.2.1 (by decide) ["a.js"] (by decide),
    (sample_bounded_and_shallowest c6Files).2.2.2.2 c6ReadA c6ReadB (by decide)⟩

/-! ## Read-failure tolerance -/

/-- The sampling loop ignores unreadable files: folding over a list equals
folding over its readable sublist. -/
theorem foldl_scanStep_filter (readFile : List String → Option String)
    (l : List (List String)) : ∀ acc : ScanResults,
    l.foldl (scanStep readFile) acc =
      (l.filter (fun f => (readFile f).isSome)).foldl (scanStep readFile) acc := by
  induction l with
  | nil => intro acc; rfl
  | cons f fs ih =>
    intro acc
    rcases hr : readFile f with _ | content
    · simp only [List.foldl_cons, List.filter_cons, hr, Option.isSome_none,
        Bool.false_eq_true, if_false]
      rw [show scanStep readFile acc f = acc by simp [scanStep, hr]]
      exact ih acc
    · simp only [List.foldl_cons, List.filter_cons, hr, Option.isSome_some, if_true]
      exact ih _

/-- The analyzed-files list collects exactly the readable part of the
sample, in order. -/
theorem foldl_scanStep_analyzed (readFile : List String → Option String)
    (l : List (List String)) : ∀ acc : ScanResults,
    (l.foldl (scanStep readFile) acc).analyzedFiles =
      acc.analyzedFiles ++ l.filter (fun f => (readFile f).isSome) := by
  induction l with
  | nil => intro acc; simp
  | cons f fs ih =>
    intro acc
    rcases hr : readFile f with _ | content
    · simp only [List.foldl_cons, List.filter_cons, hr, Option.isSome_none,
        Bool.false_eq_true, if_false]
      rw [show scanStep readFile acc f = acc by simp [scanStep, hr]]
      exact ih acc
    · simp only [List.foldl_cons, List.filter_cons, hr, Option.isSome_some, if_true]
      rw [ih]
      simp [scanStep, hr, List.append_assoc]

/-- Claim C7: when reading a sampled file fails, the scan still completes:
`analyzedFiles` is exactly the readable part of the sample, the whole
scan result equals the scan of the readable files alone (an unreadable
file contributes nothing to the identifiers or the readability totals),
and an unreadable file never appears in `analyzedFiles`. -/
theorem scan_tolerates_read_failures (readFile : List String → Option String)
    (files : List (List String)) :
    (scanCodeFiles readFile files).analyzedFiles =
      (sampleFiles files).filter (fun f => (readFile f).isSome) ∧
    scanCodeFiles readFile files =
      ((sampleFiles files).filter (fun f => (readFile f).isSome)).foldl
        (scanStep readFile) ⟨[], ⟨0, 0⟩, []⟩ ∧
    ∀ f, readFile f = none →
      f ∉ (scanCodeFiles readFile files).analyzedFiles := by
  refine ⟨?_, ?_, ?_⟩
  · unfold scanCodeFiles
    rw [foldl_scanStep_analyzed]
    rfl
  · unfold scanCodeFiles
    exact foldl_scanStep_filter readFile _ _
  · intro f hf hmem
    unfold scanCodeFiles at hmem
    rw [foldl_scanStep_analyzed] at hmem
    simp only [List.nil_append] at hmem
    have := List.of_mem_filter hmem
    rw [hf] at this
    simp at this

/-- Witness for C7: with an oracle failing exactly on `bad.js`, that file
is absent from the analyzed files of the concrete scan. -/
theorem scan_tolerates_read_failures_witness :
    ["bad.js"] ∉ (scanCodeFiles c7Read c7Files).analyzedFiles :=
  (scan_tolerates_read_failures c7Read c7Files).2.2 ["bad.js"] (by decide)

/-! ## Gemini degradation -/

/-- Claim C8: a failure of the external text-generation call makes
`askGeminiAI` return the fixed sentinel string instead of propagating the
error. -/
theorem gemini_error_degrades_to_sentinel
    (generateContent : String → Except String String) (prompt msg : String)
    (h : generateContent prompt = .error msg) :
    askGeminiAI generateContent prompt = "[Gemini API Error]" := by
  unfold askGeminiAI
  rw [h]

/-- Witness for C8 at a concrete failing call. -/
theorem gemini_error_degrades_to_sentinel_witness :
    askGeminiAI c8Gen "review this file" = "[Gemini API Error]" :=
  gemini_error_degrades_to_sentinel c8Gen "review this file" "network down" rfl

/-! ## Upload-handler cleanup -/

/-- Claim C2 is violated by the code: cleanup of the extraction directory
and the uploaded archive happens only on the success path. At a request
whose archive contains no `package.json`, the handler answers 400 without
performing either removal; when extraction throws it answers 500, again
without removing anything; only the 200 path performs both removals. -/
theorem upload_cleanup_only_on_success :
    (uploadHandler c2NoPkgRequest).status = 400 ∧
    FsAction.rmExtractDir ∉ (uploadHandler c2NoPkgRequest).actions ∧
    FsAction.rmUploadFile ∉ (uploadHandler c2NoPkgRequest).actions ∧
    (uploadHandler c2ErrorRequest).status = 500 ∧
    FsAction.rmExtractDir ∉ (uploadHandler c2ErrorRequest).actions ∧
    FsAction.rmUploadFile ∉ (uploadHandler c2ErrorRequest).actions ∧
    (uploadHandler c2OkRequest).status = 200 ∧
    FsAction.rmExtractDir ∈ (uploadHandler c2OkRequest).actions ∧
    FsAction.rmUploadFile ∈ (uploadHandler c2OkRequest).actions := by
  have h1 : locatePackageJson [] [FsTree.dir "src" [FsTree.file "app.js"]] = none := by
    simp [locatePackageJson, FsTree.name,
      show "src" ∉ EXCLUDE_FOLDERS by decide,
      show "app.js" ∉ EXCLUDE_FOLDERS by decide,
      show "app.js" ≠ "package.json" by decide]
  have h2 : locatePackageJson [] [FsTree.file "package.json"] =
      some ["package.json"] := by
    simp [locatePackageJson, FsTree.name,
      show "package.json" ∉ EXCLUDE_FOLDERS by decide]
  refine ⟨?_, ?_, ?_, ?_, ?_, ?_, ?_, ?_, ?_⟩ <;>
    simp [uploadHandler, c2NoPkgRequest, c2ErrorRequest, c2OkRequest, h1, h2]
